import Mathlib

/-!
Verification of the bootstrap consensus-aggregation engine of the
Samples_Clustering_Pipeline repository (src/sample_clustering_toolbox.py and
the knpackage toolbox functions reproduced in test/unit/toolbox_test.py).

The sample index space is Fin n (columns 0 .. n-1 of the spreadsheet).
Accumulator matrices (linkage, indicator) are n x n natural-number matrices,
modelled as functions Fin n -> Fin n -> Nat; the consensus matrix is rational
valued.  A persisted replicate record is a permutation (list of sample
indices) together with a cluster-id vector (the dumped argmax of the H
factor matrix), exactly the two arrays that save_a_clustering_to_tmp writes.
-/

/-- Integer accumulator matrix (linkage or indicator). -/
abbrev Mat (n : ℕ) := Fin n → Fin n → ℕ

/-- Rational matrix (consensus). -/
abbrev QMat (n : ℕ) := Fin n → Fin n → ℚ

/-- The all-zero accumulator, np.zeros((n, n)). -/
def zeroMat (n : ℕ) : Mat n := fun _ _ => 0

/-- One persisted replicate record: the sample permutation (temp_p file)
and the cluster-id vector dumped from np.argmax(h_matrix, 0) (temp_h file). -/
structure BootRecord (n : ℕ) where
  perm : List (Fin n)
  cid  : List ℕ
deriving DecidableEq

/-- Python max over a list of naturals (0 on the empty list, where numpy
raises instead; every use below has a nonempty list or is unaffected). -/
def listMax (l : List ℕ) : ℕ := l.foldr max 0

/-- Numpy boolean-mask selection sample_perm[cluster_id == cluster] from
update_linkage_matrix: the permutation entries whose paired cluster id
equals the given cluster. -/
def slice_id {n : ℕ} (sample_perm : List (Fin n)) (cluster_id : List ℕ)
    (cluster : ℕ) : List (Fin n) :=
  (sample_perm.zip cluster_id).filterMap
    (fun p => if p.2 = cluster then some p.1 else none)

/-- Embedding of kn.update_indicator_matrix:
indicator_matrix[sample_perm[:, None], sample_perm] += 1.
Numpy buffered fancy-index increment adds exactly 1 to every cell (i, j)
with both coordinates in sample_perm. -/
def update_indicator_matrix {n : ℕ} (sample_perm : List (Fin n))
    (indicator_matrix : Mat n) : Mat n :=
  fun i j =>
    indicator_matrix i j + if i ∈ sample_perm ∧ j ∈ sample_perm then 1 else 0

/-- Embedding of kn.update_linkage_matrix in its ndim == 1 branch (the one
exercised by the aggregator, which loads the dumped 1-D cluster_id array):
num_clusters = max(encode_mat) + 1; for each cluster, the boolean-mask slice
of sample_perm is taken and the corresponding submatrix incremented by 1
(buffered fancy-index increment, as in update_indicator_matrix). -/
def update_linkage_matrix {n : ℕ} (encode_mat : List ℕ)
    (sample_perm : List (Fin n)) (linkage_matrix : Mat n) : Mat n :=
  (List.range (listMax encode_mat + 1)).foldl
    (fun M cluster => fun i j =>
      M i j +
        if i ∈ slice_id sample_perm encode_mat cluster ∧
           j ∈ slice_id sample_perm encode_mat cluster then 1 else 0)
    linkage_matrix

/-- Embedding of get_indicator_matrix: scan every persisted record and apply
kn.update_indicator_matrix to the accumulator.  The record list stands for
the temp_p files found in the tmp directory. -/
def get_indicator_matrix {n : ℕ} (records : List (BootRecord n))
    (indicator_matrix : Mat n) : Mat n :=
  records.foldl (fun M r => update_indicator_matrix r.perm M) indicator_matrix

/-- Embedding of get_linkage_matrix: scan every persisted record, load its
permutation and paired cluster-id dump, and apply kn.update_linkage_matrix. -/
def get_linkage_matrix {n : ℕ} (records : List (BootRecord n))
    (linkage_matrix : Mat n) : Mat n :=
  records.foldl (fun M r => update_linkage_matrix r.cid r.perm M) linkage_matrix

/-- Embedding of form_consensus_matrix:
consensus_matrix = linkage_matrix / np.maximum(indicator_matrix, 1),
element-wise, after both accumulators have been folded over the records. -/
def form_consensus_matrix {n : ℕ} (records : List (BootRecord n))
    (linkage_matrix indicator_matrix : Mat n) : QMat n :=
  fun i j =>
    (get_linkage_matrix records linkage_matrix i j : ℚ) /
      max (get_indicator_matrix records indicator_matrix i j : ℚ) 1

/-- Per-record increment contributed to the indicator matrix at (i, j). -/
def indDelta {n : ℕ} (r : BootRecord n) (i j : Fin n) : ℕ :=
  if i ∈ r.perm ∧ j ∈ r.perm then 1 else 0

/-- Per-record increment contributed to the linkage matrix at (i, j): the
number of clusters whose slice contains both i and j. -/
def linkDelta {n : ℕ} (r : BootRecord n) (i j : Fin n) : ℕ :=
  (List.range (listMax r.cid + 1)).countP
    (fun c => decide (i ∈ slice_id r.perm r.cid c ∧ j ∈ slice_id r.perm r.cid c))

/-- Samples i and j are co-clustered by record r: some cluster id c is paired
with i and with j in the zip of the permutation with the cluster-id vector. -/
def CoClustered {n : ℕ} (r : BootRecord n) (i j : Fin n) : Prop :=
  ∃ c ∈ r.cid, (i, c) ∈ r.perm.zip r.cid ∧ (j, c) ∈ r.perm.zip r.cid

instance {n : ℕ} (r : BootRecord n) (i j : Fin n) :
    Decidable (CoClustered r i j) := by
  unfold CoClustered; infer_instance

lemma update_indicator_matrix_apply {n : ℕ} (perm : List (Fin n)) (M : Mat n)
    (i j : Fin n) :
    update_indicator_matrix perm M i j =
      M i j + indDelta ⟨perm, []⟩ i j := rfl

lemma foldl_add_if_apply {n : ℕ} (p : ℕ → Fin n → Fin n → Prop)
    [∀ c i j, Decidable (p c i j)]
    (l : List ℕ) (M : Mat n) (i j : Fin n) :
    (l.foldl (fun M c => fun i j => M i j + if p c i j then 1 else 0) M) i j =
      M i j + l.countP (fun c => decide (p c i j)) := by
  induction l generalizing M with
  | nil => simp
  | cons x xs ih =>
      simp only [List.foldl_cons, ih, List.countP_cons]
      by_cases hx : p x i j
      · simp [hx]
        omega
      · simp [hx]

lemma update_linkage_matrix_apply {n : ℕ} (r : BootRecord n) (M : Mat n)
    (i j : Fin n) :
    update_linkage_matrix r.cid r.perm M i j = M i j + linkDelta r i j := by
  unfold update_linkage_matrix linkDelta
  exact foldl_add_if_apply
    (fun c i j => i ∈ slice_id r.perm r.cid c ∧ j ∈ slice_id r.perm r.cid c)
    _ M i j

lemma get_indicator_matrix_apply {n : ℕ} (records : List (BootRecord n))
    (M : Mat n) (i j : Fin n) :
    get_indicator_matrix records M i j =
      M i j + (records.map (fun r => indDelta r i j)).sum := by
  induction records generalizing M with
  | nil => simp [get_indicator_matrix]
  | cons r rs ih =>
      simp only [get_indicator_matrix, List.foldl_cons] at *
      rw [ih]
      simp [update_indicator_matrix, indDelta]
      omega

lemma get_linkage_matrix_apply {n : ℕ} (records : List (BootRecord n))
    (M : Mat n) (i j : Fin n) :
    get_linkage_matrix records M i j =
      M i j + (records.map (fun r => linkDelta r i j)).sum := by
  induction records generalizing M with
  | nil => simp [get_linkage_matrix]
  | cons r rs ih =>
      simp only [get_linkage_matrix, List.foldl_cons] at *
      rw [ih, update_linkage_matrix_apply]
      simp only [List.map_cons, List.sum_cons]
      omega

lemma mem_slice_id {n : ℕ} (perm : List (Fin n)) (cid : List ℕ) (c : ℕ)
    (i : Fin n) : i ∈ slice_id perm cid c ↔ (i, c) ∈ perm.zip cid := by
  simp only [slice_id, List.mem_filterMap]
  constructor
  · rintro ⟨⟨a, b⟩, hmem, hab⟩
    by_cases hb : b = c
    · subst hb
      simp only [if_true] at hab
      cases hab
      exact hmem
    · simp [hb] at hab
  · intro h
    exact ⟨(i, c), h, by simp⟩

lemma zip_nodup_unique {n : ℕ} {perm : List (Fin n)} {cid : List ℕ}
    (hnd : perm.Nodup) {i : Fin n} {c c' : ℕ}
    (h1 : (i, c) ∈ perm.zip cid) (h2 : (i, c') ∈ perm.zip cid) : c = c' := by
  induction perm generalizing cid with
  | nil => simp at h1
  | cons a as ih =>
      cases cid with
      | nil => simp at h1
      | cons b bs =>
          obtain ⟨ha, hnd'⟩ := List.nodup_cons.mp hnd
          simp only [List.zip_cons_cons, List.mem_cons, Prod.mk.injEq] at h1 h2
          rcases h1 with ⟨hia, hcb⟩ | h1
          · rcases h2 with ⟨hia', hcb'⟩ | h2
            · rw [hcb, hcb']
            · exact absurd (hia ▸ (List.of_mem_zip h2).1) ha
          · rcases h2 with ⟨hia', hcb'⟩ | h2
            · exact absurd (hia' ▸ (List.of_mem_zip h1).1) ha
            · exact ih hnd' h1 h2

lemma listMax_ge_of_mem {a : ℕ} {l : List ℕ} (h : a ∈ l) : a ≤ listMax l := by
  induction l with
  | nil => simp at h
  | cons x xs ih =>
      rcases List.mem_cons.mp h with rfl | hmem
      · exact le_max_left _ _
      · exact le_trans (ih hmem) (le_max_right _ _)

lemma countP_eq_one_of_unique {α : Type} (p : α → Bool) (l : List α)
    (hnd : l.Nodup) (a₀ : α) (ha₀ : a₀ ∈ l) (hp : p a₀ = true)
    (huniq : ∀ a ∈ l, p a = true → a = a₀) : l.countP p = 1 := by
  induction l with
  | nil => simp at ha₀
  | cons x xs ih =>
      obtain ⟨hx, hnd'⟩ := List.nodup_cons.mp hnd
      rw [List.countP_cons]
      rcases List.mem_cons.mp ha₀ with rfl | hmem
      · have hz : xs.countP p = 0 := by
          rw [List.countP_eq_zero]
          intro a ha hpa
          exact hx ((huniq a (List.mem_cons_of_mem _ ha) hpa) ▸ ha)
        simp [hz, hp]
      · have hpx : ¬ (p x = true) := by
          intro hpx
          exact hx ((huniq x (List.mem_cons_self x xs) hpx).symm ▸ hmem)
        have : xs.countP p = 1 :=
          ih hnd' hmem (fun a ha hpa => huniq a (List.mem_cons_of_mem _ ha) hpa)
        simp [this, hpx]

lemma linkDelta_eq_ite {n : ℕ} (r : BootRecord n) (hnd : r.perm.Nodup)
    (i j : Fin n) :
    linkDelta r i j = if CoClustered r i j then 1 else 0 := by
  unfold linkDelta
  by_cases hcc : CoClustered r i j
  · obtain ⟨c₀, hc₀cid, hic₀, hjc₀⟩ := hcc
    rw [if_pos ⟨c₀, hc₀cid, hic₀, hjc₀⟩]
    refine countP_eq_one_of_unique _ _ (List.nodup_range _) c₀ ?_ ?_ ?_
    · exact List.mem_range.mpr (Nat.lt_succ_of_le (listMax_ge_of_mem hc₀cid))
    · rw [decide_eq_true_eq, mem_slice_id, mem_slice_id]
      exact ⟨hic₀, hjc₀⟩
    · intro c _ hc
      rw [decide_eq_true_eq, mem_slice_id, mem_slice_id] at hc
      exact zip_nodup_unique hnd hc.1 hic₀
  · rw [if_neg hcc, List.countP_eq_zero]
    intro c _ hc
    rw [decide_eq_true_eq, mem_slice_id, mem_slice_id] at hc
    exact hcc ⟨c, (List.of_mem_zip hc.1).2, hc.1, hc.2⟩

lemma coClustered_mem {n : ℕ} {r : BootRecord n} {i j : Fin n}
    (h : CoClustered r i j) : i ∈ r.perm ∧ j ∈ r.perm := by
  obtain ⟨c, _, hic, hjc⟩ := h
  exact ⟨(List.of_mem_zip hic).1, (List.of_mem_zip hjc).1⟩

lemma linkDelta_le_indDelta {n : ℕ} (r : BootRecord n) (hnd : r.perm.Nodup)
    (i j : Fin n) : linkDelta r i j ≤ indDelta r i j := by
  rw [linkDelta_eq_ite r hnd]
  unfold indDelta
  by_cases hcc : CoClustered r i j
  · rw [if_pos hcc, if_pos (coClustered_mem hcc)]
  · rw [if_neg hcc]
    exact Nat.zero_le _

lemma linkDelta_pos_mem {n : ℕ} {r : BootRecord n} {i j : Fin n}
    (h : 0 < linkDelta r i j) : i ∈ r.perm ∧ j ∈ r.perm := by
  unfold linkDelta at h
  rw [List.countP_pos_iff] at h
  obtain ⟨c, _, hc⟩ := h
  rw [decide_eq_true_eq, mem_slice_id, mem_slice_id] at hc
  exact ⟨(List.of_mem_zip hc.1).1, (List.of_mem_zip hc.2).1⟩

lemma indDelta_symm {n : ℕ} (r : BootRecord n) (i j : Fin n) :
    indDelta r i j = indDelta r j i := by
  unfold indDelta
  simp [and_comm]

lemma linkDelta_symm {n : ℕ} (r : BootRecord n) (i j : Fin n) :
    linkDelta r i j = linkDelta r j i := by
  unfold linkDelta
  refine List.countP_congr ?_
  intro c _
  simp [and_comm]

lemma sum_map_le {α : Type} (l : List α) (f g : α → ℕ)
    (h : ∀ a ∈ l, f a ≤ g a) : (l.map f).sum ≤ (l.map g).sum := by
  induction l with
  | nil => simp
  | cons x xs ih =>
      simp only [List.map_cons, List.sum_cons]
      exact Nat.add_le_add (h x (List.mem_cons_self x xs))
        (ih (fun a ha => h a (List.mem_cons_of_mem _ ha)))

lemma sum_map_ite_eq_countP {α : Type} (l : List α) (p : α → Prop)
    [DecidablePred p] :
    (l.map (fun a => if p a then 1 else 0)).sum =
      l.countP (fun a => decide (p a)) := by
  induction l with
  | nil => simp
  | cons x xs ih =>
      simp only [List.map_cons, List.sum_cons, List.countP_cons, ih]
      by_cases hx : p x
      · simp [hx]
        omega
      · simp [hx]

lemma perm_get_indicator_eq {n : ℕ} {l₁ l₂ : List (BootRecord n)}
    (h : l₁.Perm l₂) (M : Mat n) :
    get_indicator_matrix l₁ M = get_indicator_matrix l₂ M := by
  funext i j
  rw [get_indicator_matrix_apply, get_indicator_matrix_apply,
    (h.map (fun r => indDelta r i j)).sum_eq]

lemma perm_get_linkage_eq {n : ℕ} {l₁ l₂ : List (BootRecord n)}
    (h : l₁.Perm l₂) (M : Mat n) :
    get_linkage_matrix l₁ M = get_linkage_matrix l₂ M := by
  funext i j
  rw [get_linkage_matrix_apply, get_linkage_matrix_apply,
    (h.map (fun r => linkDelta r i j)).sum_eq]

lemma perm_form_consensus_eq {n : ℕ} {l₁ l₂ : List (BootRecord n)}
    (h : l₁.Perm l₂) (L₀ I₀ : Mat n) :
    form_consensus_matrix l₁ L₀ I₀ = form_consensus_matrix l₂ L₀ I₀ := by
  unfold form_consensus_matrix
  rw [perm_get_indicator_eq h, perm_get_linkage_eq h]

/-- Concrete records over two samples used by the witness theorems. -/
def wRecA : BootRecord 2 := ⟨[0, 1], [2, 2]⟩

/-- Concrete record: both samples retained, different clusters. -/
def wRecB : BootRecord 2 := ⟨[1, 0], [0, 1]⟩

/-- Concrete record: only sample 0 retained. -/
def wRecC : BootRecord 2 := ⟨[0], [0]⟩

/-- C1: the consensus matrix returned by form_consensus_matrix equals the
accumulated linkage matrix divided element-wise by the element-wise maximum
of the accumulated indicator matrix and 1; a pair with indicator entry 0 has
consensus entry 0 (no division fault); and with zero persisted records and
zero-initialized accumulators the consensus matrix is the zero matrix. -/
theorem claim_C1 {n : ℕ} (records : List (BootRecord n)) :
    (∀ i j, form_consensus_matrix records (zeroMat n) (zeroMat n) i j =
        (get_linkage_matrix records (zeroMat n) i j : ℚ) /
          ((max (get_indicator_matrix records (zeroMat n) i j) 1 : ℕ) : ℚ)) ∧
    (∀ i j, get_indicator_matrix records (zeroMat n) i j = 0 →
        form_consensus_matrix records (zeroMat n) (zeroMat n) i j = 0) ∧
    form_consensus_matrix ([] : List (BootRecord n)) (zeroMat n) (zeroMat n) =
      fun _ _ => (0 : ℚ) := by
  refine ⟨?_, ?_, ?_⟩
  · intro i j
    unfold form_consensus_matrix
    rw [Nat.cast_max, Nat.cast_one]
  · intro i j h
    have hsum : (records.map (fun r => indDelta r i j)).sum = 0 := by
      rw [get_indicator_matrix_apply] at h
      simpa [zeroMat] using h
    have hlink : ∀ r ∈ records, linkDelta r i j = 0 := by
      intro r hr
      by_contra hne
      have hmem := linkDelta_pos_mem (Nat.pos_of_ne_zero hne)
      have hone : indDelta r i j = 1 := by
        unfold indDelta
        rw [if_pos hmem]
      have hle : (1 : ℕ) ≤ (records.map (fun r => indDelta r i j)).sum := by
        refine le_trans (le_of_eq hone.symm) (List.le_sum_of_mem ?_)
        exact List.mem_map_of_mem _ hr
      omega
    have hL : get_linkage_matrix records (zeroMat n) i j = 0 := by
      rw [get_linkage_matrix_apply]
      simp only [zeroMat, Nat.zero_add]
      exact List.sum_eq_zero (by
        intro x hx
        obtain ⟨r, hr, rfl⟩ := List.mem_map.mp hx
        exact hlink r hr)
    unfold form_consensus_matrix
    rw [hL]
    simp
  · funext i j
    simp [form_consensus_matrix, get_linkage_matrix, get_indicator_matrix,
      zeroMat]

/-- Witness for C1 at a concrete input: one record retaining only sample 0,
so the indicator entry at (0, 1) is 0 and the consensus entry is 0. -/
theorem claim_C1_witness :
    get_indicator_matrix [wRecC] (zeroMat 2) 0 1 = 0 ∧
    form_consensus_matrix [wRecC] (zeroMat 2) (zeroMat 2) 0 1 = 0 :=
  ⟨by decide, (claim_C1 [wRecC]).2.1 0 1 (by decide)⟩

/-- C3: aggregating from zero-initialized accumulators yields a linkage
matrix counting, per pair (i, j), the records in which both appear in the
permutation with the same cluster id, and an indicator matrix counting the
records in which both appear in the permutation, irrespective of cluster
id. -/
theorem claim_C3 {n : ℕ} (records : List (BootRecord n))
    (hnd : ∀ r ∈ records, r.perm.Nodup) (i j : Fin n) :
    get_linkage_matrix records (zeroMat n) i j =
      records.countP (fun r => decide (CoClustered r i j)) ∧
    get_indicator_matrix records (zeroMat n) i j =
      records.countP (fun r => decide (i ∈ r.perm ∧ j ∈ r.perm)) := by
  constructor
  · rw [get_linkage_matrix_apply]
    simp only [zeroMat, Nat.zero_add]
    rw [List.map_congr_left
      (fun r hr => linkDelta_eq_ite r (hnd r hr) i j)]
    exact sum_map_ite_eq_countP records (fun r => CoClustered r i j)
  · rw [get_indicator_matrix_apply]
    simp only [zeroMat, Nat.zero_add, indDelta]
    exact sum_map_ite_eq_countP records (fun r => i ∈ r.perm ∧ j ∈ r.perm)

/-- Witness for C3 on three concrete records over two samples. -/
theorem claim_C3_witness :
    (∀ r ∈ [wRecA, wRecB, wRecC], r.perm.Nodup) ∧
    (get_linkage_matrix [wRecA, wRecB, wRecC] (zeroMat 2) 0 1 =
       List.countP (fun r => decide (CoClustered r 0 1)) [wRecA, wRecB, wRecC] ∧
     get_indicator_matrix [wRecA, wRecB, wRecC] (zeroMat 2) 0 1 =
       List.countP (fun r => decide ((0 : Fin 2) ∈ r.perm ∧ (1 : Fin 2) ∈ r.perm))
         [wRecA, wRecB, wRecC]) :=
  ⟨by decide, claim_C3 [wRecA, wRecB, wRecC] (by decide) 0 1⟩

/-- C4: aggregation is order-independent: scanning the same record set in
either enumeration order from the same initial accumulators produces
identical linkage, indicator, and consensus matrices. -/
theorem claim_C4 {n : ℕ} (l₁ l₂ : List (BootRecord n)) (h : l₁.Perm l₂)
    (L₀ I₀ : Mat n) :
    get_indicator_matrix l₁ I₀ = get_indicator_matrix l₂ I₀ ∧
    get_linkage_matrix l₁ L₀ = get_linkage_matrix l₂ L₀ ∧
    form_consensus_matrix l₁ L₀ I₀ = form_consensus_matrix l₂ L₀ I₀ :=
  ⟨perm_get_indicator_eq h I₀, perm_get_linkage_eq h L₀,
    perm_form_consensus_eq h L₀ I₀⟩

/-- Witness for C4: the two-record set scanned in both orders. -/
theorem claim_C4_witness :
    List.Perm [wRecA, wRecB] [wRecB, wRecA] ∧
    (get_indicator_matrix [wRecA, wRecB] (zeroMat 2) =
       get_indicator_matrix [wRecB, wRecA] (zeroMat 2) ∧
     get_linkage_matrix [wRecA, wRecB] (zeroMat 2) =
       get_linkage_matrix [wRecB, wRecA] (zeroMat 2) ∧
     form_consensus_matrix [wRecA, wRecB] (zeroMat 2) (zeroMat 2) =
       form_consensus_matrix [wRecB, wRecA] (zeroMat 2) (zeroMat 2)) :=
  ⟨by decide, claim_C4 [wRecA, wRecB] [wRecB, wRecA] (by decide)
    (zeroMat 2) (zeroMat 2)⟩

/-- C5: aggregation is idempotent over a fixed record set: re-running the
scan from fresh zero-initialized accumulators over the same persisted
records (in whatever order the directory enumerates them) reproduces the
same linkage, indicator, and consensus matrices. -/
theorem claim_C5 {n : ℕ} (records rescan : List (BootRecord n))
    (h : records.Perm rescan) :
    get_linkage_matrix rescan (zeroMat n) =
      get_linkage_matrix records (zeroMat n) ∧
    get_indicator_matrix rescan (zeroMat n) =
      get_indicator_matrix records (zeroMat n) ∧
    form_consensus_matrix rescan (zeroMat n) (zeroMat n) =
      form_consensus_matrix records (zeroMat n) (zeroMat n) :=
  ⟨perm_get_linkage_eq h.symm _, perm_get_indicator_eq h.symm _,
    perm_form_consensus_eq h.symm _ _⟩

/-- Witness for C5: rescanning the same three records in another order. -/
theorem claim_C5_witness :
    List.Perm [wRecA, wRecB, wRecC] [wRecC, wRecA, wRecB] ∧
    (get_linkage_matrix [wRecC, wRecA, wRecB] (zeroMat 2) =
       get_linkage_matrix [wRecA, wRecB, wRecC] (zeroMat 2) ∧
     get_indicator_matrix [wRecC, wRecA, wRecB] (zeroMat 2) =
       get_indicator_matrix [wRecA, wRecB, wRecC] (zeroMat 2) ∧
     form_consensus_matrix [wRecC, wRecA, wRecB] (zeroMat 2) (zeroMat 2) =
       form_consensus_matrix [wRecA, wRecB, wRecC] (zeroMat 2) (zeroMat 2)) :=
  ⟨by decide, claim_C5 [wRecA, wRecB, wRecC] [wRecC, wRecA, wRecB] (by decide)⟩

/-- C6: for records with duplicate-free permutations aggregated from
zero-initialized accumulators, every indicator entry dominates the linkage
entry, and every consensus entry lies in [0, 1]. -/
theorem claim_C6 {n : ℕ} (records : List (BootRecord n))
    (hnd : ∀ r ∈ records, r.perm.Nodup) (i j : Fin n) :
    get_linkage_matrix records (zeroMat n) i j ≤
      get_indicator_matrix records (zeroMat n) i j ∧
    0 ≤ form_consensus_matrix records (zeroMat n) (zeroMat n) i j ∧
    form_consensus_matrix records (zeroMat n) (zeroMat n) i j ≤ 1 := by
  have hLI : get_linkage_matrix records (zeroMat n) i j ≤
      get_indicator_matrix records (zeroMat n) i j := by
    rw [get_linkage_matrix_apply, get_indicator_matrix_apply]
    exact Nat.add_le_add_left
      (sum_map_le records _ _ (fun r hr => linkDelta_le_indDelta r (hnd r hr) i j)) _
  refine ⟨hLI, ?_, ?_⟩
  · unfold form_consensus_matrix
    apply div_nonneg (Nat.cast_nonneg _)
    exact le_trans zero_le_one (le_max_right _ _)
  · unfold form_consensus_matrix
    apply div_le_one_of_le₀
    · exact le_trans (Nat.cast_le.mpr hLI) (le_max_left _ _)
    · exact le_trans zero_le_one (le_max_right _ _)

/-- Witness for C6 at a concrete input. -/
theorem claim_C6_witness :
    (∀ r ∈ [wRecA, wRecB, wRecC], r.perm.Nodup) ∧
    (get_linkage_matrix [wRecA, wRecB, wRecC] (zeroMat 2) 0 1 ≤
       get_indicator_matrix [wRecA, wRecB, wRecC] (zeroMat 2) 0 1 ∧
     0 ≤ form_consensus_matrix [wRecA, wRecB, wRecC] (zeroMat 2) (zeroMat 2) 0 1 ∧
     form_consensus_matrix [wRecA, wRecB, wRecC] (zeroMat 2) (zeroMat 2) 0 1 ≤ 1) :=
  ⟨by decide, claim_C6 [wRecA, wRecB, wRecC] (by decide) 0 1⟩

/-- C7: starting from symmetric (in particular zero-initialized)
accumulators, the aggregated linkage and indicator matrices are symmetric,
and each single record's update preserves symmetry. -/
theorem claim_C7 {n : ℕ} (records : List (BootRecord n)) (L₀ I₀ : Mat n)
    (hL : ∀ i j, L₀ i j = L₀ j i) (hI : ∀ i j, I₀ i j = I₀ j i) :
    (∀ i j, get_linkage_matrix records L₀ i j = get_linkage_matrix records L₀ j i) ∧
    (∀ i j, get_indicator_matrix records I₀ i j = get_indicator_matrix records I₀ j i) ∧
    (∀ (r : BootRecord n) (M : Mat n), (∀ i j, M i j = M j i) →
      (∀ i j, update_linkage_matrix r.cid r.perm M i j =
          update_linkage_matrix r.cid r.perm M j i) ∧
      (∀ i j, update_indicator_matrix r.perm M i j =
          update_indicator_matrix r.perm M j i)) := by
  refine ⟨?_, ?_, ?_⟩
  · intro i j
    rw [get_linkage_matrix_apply, get_linkage_matrix_apply, hL i j,
      List.map_congr_left (fun r _ => linkDelta_symm r i j)]
  · intro i j
    rw [get_indicator_matrix_apply, get_indicator_matrix_apply, hI i j,
      List.map_congr_left (fun r _ => indDelta_symm r i j)]
  · intro r M hM
    constructor
    · intro i j
      rw [update_linkage_matrix_apply, update_linkage_matrix_apply, hM i j,
        linkDelta_symm]
    · intro i j
      have h1 : update_indicator_matrix r.perm M i j =
          M i j + indDelta r i j := rfl
      have h2 : update_indicator_matrix r.perm M j i =
          M j i + indDelta r j i := rfl
      rw [h1, h2, hM i j, indDelta_symm]

/-- Witness for C7 with zero-initialized accumulators. -/
theorem claim_C7_witness :
    (∀ i j, zeroMat 2 i j = zeroMat 2 j i) ∧
    ((∀ i j, get_linkage_matrix [wRecA, wRecB] (zeroMat 2) i j =
        get_linkage_matrix [wRecA, wRecB] (zeroMat 2) j i) ∧
     (∀ i j, get_indicator_matrix [wRecA, wRecB] (zeroMat 2) i j =
        get_indicator_matrix [wRecA, wRecB] (zeroMat 2) j i) ∧
     (∀ (r : BootRecord 2) (M : Mat 2), (∀ i j, M i j = M j i) →
       (∀ i j, update_linkage_matrix r.cid r.perm M i j =
           update_linkage_matrix r.cid r.perm M j i) ∧
       (∀ i j, update_indicator_matrix r.perm M i j =
           update_indicator_matrix r.perm M j i))) :=
  ⟨by decide, claim_C7 [wRecA, wRecB] (zeroMat 2) (zeroMat 2)
    (by decide) (by decide)⟩

/-- Outcome of the processing_method dispatch in run_cc_nmf and
run_cc_net_nmf: either every bootstrap worker ran (and persisted one record
each), or the else-branch raised ValueError. -/
inductive RunOutcome (α : Type) where
  | completed  : List α → RunOutcome α
  | valueError : String → RunOutcome α

/-- State visible after the dispatch section of run_cc_nmf or
run_cc_net_nmf: the temporary directory that update_tmp_directory created
on disk (os.mkdir inside kn.create_dir), and what the dispatch produced. -/
structure RunTrace (α : Type) where
  tmp_directory : Option String
  outcome : RunOutcome α

/-- Embedding of kn.create_dir: os.path.join(dir_path, dir_name + timestamp)
followed by os.mkdir on that path. -/
def create_dir (dir_path dir_name : String) (timestamp : ℕ) : String :=
  dir_path ++ "/" ++ dir_name ++ toString timestamp

/-- Embedding of update_tmp_directory: the distribute value resolves the tmp
directory under the cluster shared volume; every other processing_method
value (an unrecognized one included) resolves it under the run directory.
Either way kn.create_dir creates the directory on disk. -/
def update_tmp_directory (processing_method cluster_shared_volumn
    run_directory tmp_dir : String) (timestamp : ℕ) : String :=
  if processing_method = "distribute" then
    create_dir cluster_shared_volumn tmp_dir timestamp
  else
    create_dir run_directory tmp_dir timestamp

/-- Embedding of the processing_method dispatch shared by run_cc_nmf and
run_cc_net_nmf: parallel, serial and distribute each run the worker once
per bootstrap index (the strategies differ only in where the work runs,
which the record-set contract makes indistinguishable); any other value
falls through to raise ValueError without invoking any worker. -/
def dispatch_bootstraps {α : Type} (worker : ℕ → α)
    (processing_method : String) (number_of_bootstraps : ℕ) : RunOutcome α :=
  if processing_method = "parallel" then
    RunOutcome.completed ((List.range number_of_bootstraps).map worker)
  else if processing_method = "serial" then
    RunOutcome.completed ((List.range number_of_bootstraps).map worker)
  else if processing_method = "distribute" then
    RunOutcome.completed ((List.range number_of_bootstraps).map worker)
  else
    RunOutcome.valueError "processing_method contains bad value."

/-- Control-flow model of run_cc_nmf up to the dispatch: update_tmp_directory
creates the tmp directory BEFORE the processing_method value is examined. -/
def run_cc_nmf_model {α : Type} (worker : ℕ → α)
    (processing_method cluster_shared_volumn run_directory : String)
    (number_of_bootstraps timestamp : ℕ) : RunTrace α :=
  { tmp_directory := some (update_tmp_directory processing_method
      cluster_shared_volumn run_directory "tmp_cc_nmf" timestamp)
    outcome := dispatch_bootstraps worker processing_method number_of_bootstraps }

/-- Control-flow model of run_cc_net_nmf up to the dispatch (identical
dispatch structure; only the tmp directory base name differs). -/
def run_cc_net_nmf_model {α : Type} (worker : ℕ → α)
    (processing_method cluster_shared_volumn run_directory : String)
    (number_of_bootstraps timestamp : ℕ) : RunTrace α :=
  { tmp_directory := some (update_tmp_directory processing_method
      cluster_shared_volumn run_directory "tmp_cc_net_nmf" timestamp)
    outcome := dispatch_bootstraps worker processing_method number_of_bootstraps }

/-- Counterexample to C2 as stated: with the unrecognized processing_method
value bogus, run_cc_nmf does raise ValueError, but partial state HAS been
created: update_tmp_directory already created the run's temporary directory
(run/tmp_cc_nmf7 here) before the dispatch examined the value. -/
theorem claim_C2_counterexample :
    (run_cc_nmf_model (fun k => k) "bogus" "vol" "run" 3 7).outcome =
      RunOutcome.valueError "processing_method contains bad value." ∧
    (run_cc_nmf_model (fun k => k) "bogus" "vol" "run" 3 7).tmp_directory =
      some "run/tmp_cc_nmf7" ∧
    (run_cc_net_nmf_model (fun k => k) "bogus" "vol" "run" 3 7).tmp_directory =
      some "run/tmp_cc_net_nmf7" :=
  ⟨rfl, rfl, rfl⟩

/-- C2 amended: for every processing_method value other than serial,
parallel and distribute, run_cc_nmf and run_cc_net_nmf raise ValueError
from the dispatch else-branch before any replicate work begins (no worker
runs, no record is persisted), but the run's temporary directory has
already been created under the run directory by update_tmp_directory. -/
theorem claim_C2_amended {α : Type} (worker : ℕ → α)
    (pm csv rd : String) (nb ts : ℕ)
    (h1 : pm ≠ "serial") (h2 : pm ≠ "parallel") (h3 : pm ≠ "distribute") :
    (run_cc_nmf_model worker pm csv rd nb ts).outcome =
      RunOutcome.valueError "processing_method contains bad value." ∧
    (∀ recs, (run_cc_nmf_model worker pm csv rd nb ts).outcome ≠
      RunOutcome.completed recs) ∧
    (run_cc_nmf_model worker pm csv rd nb ts).tmp_directory =
      some (create_dir rd "tmp_cc_nmf" ts) ∧
    (run_cc_net_nmf_model worker pm csv rd nb ts).outcome =
      RunOutcome.valueError "processing_method contains bad value." ∧
    (run_cc_net_nmf_model worker pm csv rd nb ts).tmp_directory =
      some (create_dir rd "tmp_cc_net_nmf" ts) := by
  have hd : dispatch_bootstraps worker pm nb =
      RunOutcome.valueError "processing_method contains bad value." := by
    unfold dispatch_bootstraps
    rw [if_neg h2, if_neg h1, if_neg h3]
  refine ⟨hd, ?_, ?_, hd, ?_⟩
  · intro recs
    rw [show (run_cc_nmf_model worker pm csv rd nb ts).outcome =
      dispatch_bootstraps worker pm nb from rfl, hd]
    intro hcon
    cases hcon
  · show some (update_tmp_directory pm csv rd "tmp_cc_nmf" ts) = _
    rw [update_tmp_directory, if_neg h3]
  · show some (update_tmp_directory pm csv rd "tmp_cc_net_nmf" ts) = _
    rw [update_tmp_directory, if_neg h3]

/-- Witness for the amended C2 at the concrete bad value bogus. -/
theorem claim_C2_witness :
    (("bogus" : String) ≠ "serial" ∧ ("bogus" : String) ≠ "parallel" ∧
      ("bogus" : String) ≠ "distribute") ∧
    ((run_cc_nmf_model (fun k => k) "bogus" "vol" "run" 3 7).outcome =
       RunOutcome.valueError "processing_method contains bad value." ∧
     (∀ recs, (run_cc_nmf_model (fun k => k) "bogus" "vol" "run" 3 7).outcome ≠
       RunOutcome.completed recs) ∧
     (run_cc_nmf_model (fun k => k) "bogus" "vol" "run" 3 7).tmp_directory =
       some (create_dir "run" "tmp_cc_nmf" 7) ∧
     (run_cc_net_nmf_model (fun k => k) "bogus" "vol" "run" 3 7).outcome =
       RunOutcome.valueError "processing_method contains bad value." ∧
     (run_cc_net_nmf_model (fun k => k) "bogus" "vol" "run" 3 7).tmp_directory =
       some (create_dir "run" "tmp_cc_net_nmf" 7)) :=
  ⟨⟨by decide, by decide, by decide⟩,
    claim_C2_amended (fun k => k) "bogus" "vol" "run" 3 7
      (by decide) (by decide) (by decide)⟩

/-- Python max over a list of rationals (one column of H); 0 on the empty
list, which numpy instead rejects — argmax is only taken on nonempty
columns. -/
def colMax : List ℚ → ℚ
  | [] => 0
  | [x] => x
  | x :: y :: xs => max x (colMax (y :: xs))

/-- Numpy 1-D argmax: index of the FIRST occurrence of the maximum
(np.argmax tie-breaking rule). -/
def npArgmaxList : List ℚ → ℕ
  | [] => 0
  | [_] => 0
  | x :: y :: xs =>
      if x < colMax (y :: xs) then npArgmaxList (y :: xs) + 1 else 0

lemma npArgmaxList_lt_length :
    ∀ (l : List ℚ), l ≠ [] → npArgmaxList l < l.length
  | [], h => absurd rfl h
  | [x], _ => by simp [npArgmaxList]
  | x :: y :: xs, _ => by
      have e1 : npArgmaxList (x :: y :: xs) =
          if x < colMax (y :: xs) then npArgmaxList (y :: xs) + 1 else 0 := rfl
      rw [e1]
      by_cases h : x < colMax (y :: xs)
      · rw [if_pos h]
        have ih := npArgmaxList_lt_length (y :: xs) (by simp)
        simp only [List.length_cons] at *
        omega
      · rw [if_neg h]
        simp

lemma getD_npArgmaxList_eq_colMax :
    ∀ (l : List ℚ), l ≠ [] → l.getD (npArgmaxList l) 0 = colMax l
  | [], h => absurd rfl h
  | [x], _ => by simp [npArgmaxList, colMax]
  | x :: y :: xs, _ => by
      have e1 : npArgmaxList (x :: y :: xs) =
          if x < colMax (y :: xs) then npArgmaxList (y :: xs) + 1 else 0 := rfl
      have e2 : colMax (x :: y :: xs) = max x (colMax (y :: xs)) := rfl
      rw [e1, e2]
      by_cases h : x < colMax (y :: xs)
      · rw [if_pos h, List.getD_cons_succ,
          getD_npArgmaxList_eq_colMax (y :: xs) (by simp),
          max_eq_right (le_of_lt h)]
      · rw [if_neg h, List.getD_cons_zero, max_eq_left (not_lt.mp h)]

lemma getD_le_colMax :
    ∀ (l : List ℚ) (k : ℕ), k < l.length → l.getD k 0 ≤ colMax l
  | [], k, h => by simp at h
  | [x], 0, _ => by simp [colMax]
  | [x], (k + 1), h => by simp at h
  | x :: y :: xs, 0, _ => by
      have e2 : colMax (x :: y :: xs) = max x (colMax (y :: xs)) := rfl
      rw [List.getD_cons_zero, e2]
      exact le_max_left _ _
  | x :: y :: xs, (k + 1), h => by
      have e2 : colMax (x :: y :: xs) = max x (colMax (y :: xs)) := rfl
      rw [List.getD_cons_succ, e2]
      refine le_trans (getD_le_colMax (y :: xs) k ?_) (le_max_right _ _)
      simp only [List.length_cons] at *
      omega

lemma getD_lt_colMax_of_lt_argmax :
    ∀ (l : List ℚ) (k : ℕ), k < npArgmaxList l → l.getD k 0 < colMax l
  | [], k, h => by simp [npArgmaxList] at h
  | [x], k, h => by simp [npArgmaxList] at h
  | x :: y :: xs, k, hk => by
      have e1 : npArgmaxList (x :: y :: xs) =
          if x < colMax (y :: xs) then npArgmaxList (y :: xs) + 1 else 0 := rfl
      have e2 : colMax (x :: y :: xs) = max x (colMax (y :: xs)) := rfl
      rw [e1] at hk
      by_cases h : x < colMax (y :: xs)
      · rw [if_pos h] at hk
        rw [e2, max_eq_right (le_of_lt h)]
        cases k with
        | zero =>
            rw [List.getD_cons_zero]
            exact h
        | succ k =>
            rw [List.getD_cons_succ]
            exact getD_lt_colMax_of_lt_argmax (y :: xs) k
              (Nat.lt_of_succ_lt_succ hk)
      · rw [if_neg h] at hk
        omega

/-- Embedding of np.argmax(h_matrix, 0) on a 2-D row-major matrix (list of
rows): one argmax per column; the column count is the first row's length
(numpy arrays are rectangular). -/
def np_argmax_axis0 (h_matrix : List (List ℚ)) : List ℕ :=
  (List.range (h_matrix.headD []).length).map
    (fun j => npArgmaxList (h_matrix.map (fun row => row.getD j 0)))

lemma getD_map_range (f : ℕ → ℕ) (m j : ℕ) (hj : j < m) :
    ((List.range m).map f).getD j 0 = f j := by
  rw [List.getD_eq_getElem _ _ (by simpa using hj)]
  simp

/-- Record persisted by save_a_clustering_to_tmp: the two filenames written
and their contents.  cluster_id = np.argmax(h_matrix, 0) is dumped to the
temp_h file and sample_permutation to the temp_p file; both names share the
suffix built by kn.create_timestamped_filename('_N' + str(sequence_number)). -/
structure SavedClustering where
  hname : List Char
  pname : List Char
  assignment : List ℕ
  permutation : List ℕ

/-- Embedding of kn.create_timestamped_filename: name_base + '_' followed by
the timestamp digits (the caller passes precision=1e12; only the numeric
value matters here). -/
def create_timestamped_filename (name_base : List Char) (timestamp : ℕ) :
    List Char :=
  name_base ++ '_' :: (toString timestamp).toList

/-- Embedding of save_a_clustering_to_tmp: compute the per-sample cluster
ids as np.argmax(h_matrix, 0), then dump them and the permutation to
temp_h<suffix> and temp_p<suffix> with the shared timestamped suffix. -/
def save_a_clustering_to_tmp (h_matrix : List (List ℚ))
    (sample_permutation : List ℕ) (sequence_number timestamp : ℕ) :
    SavedClustering :=
  let time_stamp := create_timestamped_filename
    ("_N".toList ++ (toString sequence_number).toList) timestamp
  { hname := "temp_h".toList ++ time_stamp
    pname := "temp_p".toList ++ time_stamp
    assignment := np_argmax_axis0 h_matrix
    permutation := sample_permutation }

lemma np_argmax_axis0_spec (h_matrix : List (List ℚ)) (hne : h_matrix ≠ [])
    (j : ℕ) (hj : j < (h_matrix.headD []).length) :
    (np_argmax_axis0 h_matrix).getD j 0 < h_matrix.length ∧
    (∀ r, r < h_matrix.length →
      (h_matrix.map (fun row => row.getD j 0)).getD r 0 ≤
        (h_matrix.map (fun row => row.getD j 0)).getD
          ((np_argmax_axis0 h_matrix).getD j 0) 0) ∧
    (∀ r, r < (np_argmax_axis0 h_matrix).getD j 0 →
      (h_matrix.map (fun row => row.getD j 0)).getD r 0 <
        (h_matrix.map (fun row => row.getD j 0)).getD
          ((np_argmax_axis0 h_matrix).getD j 0) 0) := by
  have hcol_ne : h_matrix.map (fun row => row.getD j 0) ≠ [] := by
    intro hcon
    exact hne (List.map_eq_nil_iff.mp hcon)
  have hlen : (h_matrix.map (fun row => row.getD j 0)).length =
      h_matrix.length := List.length_map _ _
  have ha : (np_argmax_axis0 h_matrix).getD j 0 =
      npArgmaxList (h_matrix.map (fun row => row.getD j 0)) := by
    unfold np_argmax_axis0
    exact getD_map_range _ _ j hj
  have hmax := getD_npArgmaxList_eq_colMax _ hcol_ne
  refine ⟨?_, ?_, ?_⟩
  · rw [ha, ← hlen]
    exact npArgmaxList_lt_length _ hcol_ne
  · intro r hr
    rw [ha, hmax]
    exact getD_le_colMax _ r (hlen ▸ hr)
  · intro r hr
    rw [ha, hmax]
    rw [ha] at hr
    exact getD_lt_colMax_of_lt_argmax _ r hr

/-- C8: the assignment vector persisted by save_a_clustering_to_tmp assigns
to each retained sample (each column j of the k x m factor matrix H) the
index of its dominant factor — a row index whose column-j entry is maximal,
and the first such index (np.argmax tie-breaking) — and its length equals
the length of the persisted permutation. -/
theorem claim_C8 (h_matrix : List (List ℚ)) (sample_permutation : List ℕ)
    (sequence_number timestamp : ℕ) (hne : h_matrix ≠ [])
    (hrect : ∀ row ∈ h_matrix, row.length = sample_permutation.length) :
    (save_a_clustering_to_tmp h_matrix sample_permutation sequence_number
        timestamp).assignment.length =
      (save_a_clustering_to_tmp h_matrix sample_permutation sequence_number
        timestamp).permutation.length ∧
    ∀ j, j < sample_permutation.length →
      (save_a_clustering_to_tmp h_matrix sample_permutation sequence_number
          timestamp).assignment.getD j 0 < h_matrix.length ∧
      (∀ r, r < h_matrix.length →
        (h_matrix.map (fun row => row.getD j 0)).getD r 0 ≤
          (h_matrix.map (fun row => row.getD j 0)).getD
            ((save_a_clustering_to_tmp h_matrix sample_permutation
              sequence_number timestamp).assignment.getD j 0) 0) ∧
      (∀ r, r < (save_a_clustering_to_tmp h_matrix sample_permutation
          sequence_number timestamp).assignment.getD j 0 →
        (h_matrix.map (fun row => row.getD j 0)).getD r 0 <
          (h_matrix.map (fun row => row.getD j 0)).getD
            ((save_a_clustering_to_tmp h_matrix sample_permutation
              sequence_number timestamp).assignment.getD j 0) 0) := by
  have hhead : (h_matrix.headD []).length = sample_permutation.length := by
    cases h_matrix with
    | nil => exact absurd rfl hne
    | cons r0 rest => exact hrect r0 (List.mem_cons_self r0 rest)
  have hassign : (save_a_clustering_to_tmp h_matrix sample_permutation
      sequence_number timestamp).assignment = np_argmax_axis0 h_matrix := rfl
  constructor
  · rw [hassign]
    show (np_argmax_axis0 h_matrix).length = sample_permutation.length
    unfold np_argmax_axis0
    rw [List.length_map, List.length_range]
    exact hhead
  · intro j hj
    rw [hassign]
    exact np_argmax_axis0_spec h_matrix hne j (hhead ▸ hj)

/-- Concrete 3 x 2 factor matrix for the C8 witness. -/
def wHmat : List (List ℚ) := [[1, 5], [3, 2], [3, 7]]

/-- Concrete permutation for the C8 witness. -/
def wPerm : List ℕ := [10, 11]

/-- The record the C8 witness saves. -/
def wSaved : SavedClustering := save_a_clustering_to_tmp wHmat wPerm 0 99

/-- Witness for C8 on a concrete 3 x 2 factor matrix. -/
theorem claim_C8_witness :
    (wHmat ≠ [] ∧ ∀ row ∈ wHmat, row.length = wPerm.length) ∧
    (wSaved.assignment.length = wSaved.permutation.length ∧
     ∀ j, j < wPerm.length →
      wSaved.assignment.getD j 0 < wHmat.length ∧
      (∀ r, r < wHmat.length →
        (wHmat.map (fun row => row.getD j 0)).getD r 0 ≤
          (wHmat.map (fun row => row.getD j 0)).getD
            (wSaved.assignment.getD j 0) 0) ∧
      (∀ r, r < wSaved.assignment.getD j 0 →
        (wHmat.map (fun row => row.getD j 0)).getD r 0 <
          (wHmat.map (fun row => row.getD j 0)).getD
            (wSaved.assignment.getD j 0) 0)) :=
  ⟨⟨by decide, by decide⟩, claim_C8 wHmat wPerm 0 99 (by decide) (by decide)⟩

/-- Aggregator filename pairing in get_linkage_matrix: from a directory
entry tmp_f it derives the h-file name tmp_f[0:5] + 'h' + tmp_f[6:]. -/
def paired_h_name (tmp_f : List Char) : List Char :=
  tmp_f.take 5 ++ 'h' :: tmp_f.drop 6

/-- Scan filter used by get_indicator_matrix and get_linkage_matrix:
tmp_f[0:6] == 'temp_p' (false for names shorter than 6 characters, as the
Python slice then compares a shorter string). -/
def is_temp_p_name (tmp_f : List Char) : Bool :=
  decide (tmp_f.take 6 = "temp_p".toList)

/-- C9: the two files persisted for a record are named temp_h<suffix> and
temp_p<suffix> with one shared suffix built from the replicate id and the
timestamp; the p-name passes the aggregator's temp_p filter; and for every
scanned name of the form temp_p<s>, the aggregator loads the assignment
from exactly temp_h<s>. -/
theorem claim_C9 (h_matrix : List (List ℚ)) (sample_permutation : List ℕ)
    (sequence_number timestamp : ℕ) :
    (∃ suffix : List Char,
      (save_a_clustering_to_tmp h_matrix sample_permutation sequence_number
        timestamp).hname = "temp_h".toList ++ suffix ∧
      (save_a_clustering_to_tmp h_matrix sample_permutation sequence_number
        timestamp).pname = "temp_p".toList ++ suffix ∧
      suffix = "_N".toList ++ (toString sequence_number).toList ++
        '_' :: (toString timestamp).toList) ∧
    is_temp_p_name (save_a_clustering_to_tmp h_matrix sample_permutation
      sequence_number timestamp).pname = true ∧
    paired_h_name (save_a_clustering_to_tmp h_matrix sample_permutation
        sequence_number timestamp).pname =
      (save_a_clustering_to_tmp h_matrix sample_permutation sequence_number
        timestamp).hname ∧
    (∀ s : List Char,
      paired_h_name ("temp_p".toList ++ s) = "temp_h".toList ++ s) := by
  refine ⟨⟨create_timestamped_filename
      ("_N".toList ++ (toString sequence_number).toList) timestamp,
      rfl, rfl, ?_⟩, rfl, rfl, fun s => rfl⟩
  simp [create_timestamped_filename]

/-- Filesystem-level model of the tmp directory consumed by the aggregator:
the directory listing (os.listdir order) and the np.load result for each
p-file and h-file name. -/
structure TmpDir (n : ℕ) where
  files  : List (List Char)
  load_p : List Char → List (Fin n)
  load_h : List Char → List ℕ

/-- Directory-level embedding of get_indicator_matrix: scan dir_list and
update only on names whose first six characters are temp_p. -/
def get_indicator_matrix_dir {n : ℕ} (d : TmpDir n)
    (indicator_matrix : Mat n) : Mat n :=
  d.files.foldl
    (fun M tmp_f =>
      if is_temp_p_name tmp_f then update_indicator_matrix (d.load_p tmp_f) M
      else M)
    indicator_matrix

/-- Directory-level embedding of get_linkage_matrix: scan dir_list, and on
each temp_p name load the permutation and the paired temp_h dump. -/
def get_linkage_matrix_dir {n : ℕ} (d : TmpDir n)
    (linkage_matrix : Mat n) : Mat n :=
  d.files.foldl
    (fun M tmp_f =>
      if is_temp_p_name tmp_f then
        update_linkage_matrix (d.load_h (paired_h_name tmp_f))
          (d.load_p tmp_f) M
      else M)
    linkage_matrix

/-- The records a directory denotes: one per temp_p file, pairing its
permutation with the assignment loaded from the paired temp_h name. -/
def dir_records {n : ℕ} (d : TmpDir n) : List (BootRecord n) :=
  (d.files.filter (fun f => is_temp_p_name f)).map
    (fun f => ⟨d.load_p f, d.load_h (paired_h_name f)⟩)

lemma foldl_if_filter {α β : Type} (p : α → Bool) (g : α → β → β) :
    ∀ (l : List α) (b : β),
      l.foldl (fun acc a => if p a then g a acc else acc) b =
        (l.filter p).foldl (fun acc a => g a acc) b
  | [], b => rfl
  | x :: xs, b => by
      rw [List.foldl_cons, List.filter_cons]
      by_cases hx : p x
      · rw [if_pos hx, if_pos hx, List.foldl_cons]
        exact foldl_if_filter p g xs (g x b)
      · rw [if_neg hx, if_neg (by simpa using hx)]
        exact foldl_if_filter p g xs b

/-- C10: the aggregated matrices are determined solely by the files whose
names begin with temp_p (each paired with its temp_h file): the directory
scan equals the aggregation over dir_records, and appending any file whose
name fails the temp_p filter leaves both scans unchanged. -/
theorem claim_C10 {n : ℕ} (d : TmpDir n) (linkage_init indicator_init : Mat n) :
    get_indicator_matrix_dir d indicator_init =
      get_indicator_matrix (dir_records d) indicator_init ∧
    get_linkage_matrix_dir d linkage_init =
      get_linkage_matrix (dir_records d) linkage_init ∧
    (∀ f, is_temp_p_name f = false →
      get_indicator_matrix_dir ⟨d.files ++ [f], d.load_p, d.load_h⟩
          indicator_init = get_indicator_matrix_dir d indicator_init ∧
      get_linkage_matrix_dir ⟨d.files ++ [f], d.load_p, d.load_h⟩
          linkage_init = get_linkage_matrix_dir d linkage_init) := by
  refine ⟨?_, ?_, ?_⟩
  · unfold get_indicator_matrix_dir get_indicator_matrix dir_records
    rw [foldl_if_filter, List.foldl_map]
  · unfold get_linkage_matrix_dir get_linkage_matrix dir_records
    rw [foldl_if_filter, List.foldl_map]
  · intro f hf
    constructor
    · unfold get_indicator_matrix_dir
      rw [List.foldl_append]
      simp [hf]
    · unfold get_linkage_matrix_dir
      rw [List.foldl_append]
      simp [hf]

/-- Concrete directory for the C10 witness: one well-formed record pair and
one unrelated file. -/
def wDir : TmpDir 2 :=
  ⟨["temp_pX".toList, "junk.txt".toList],
   fun f => if f = "temp_pX".toList then [0, 1] else [],
   fun f => if f = "temp_hX".toList then [0, 0] else []⟩

/-- Witness for C10: appending a non-temp_p file changes nothing. -/
theorem claim_C10_witness :
    is_temp_p_name "notes.log".toList = false ∧
    (get_indicator_matrix_dir
        ⟨wDir.files ++ ["notes.log".toList], wDir.load_p, wDir.load_h⟩
        (zeroMat 2) = get_indicator_matrix_dir wDir (zeroMat 2) ∧
     get_linkage_matrix_dir
        ⟨wDir.files ++ ["notes.log".toList], wDir.load_p, wDir.load_h⟩
        (zeroMat 2) = get_linkage_matrix_dir wDir (zeroMat 2)) :=
  ⟨by decide,
    (claim_C10 wDir (zeroMat 2) (zeroMat 2)).2.2 "notes.log".toList (by decide)⟩
